import Mathlib

/-!
Verification development for the checkpoints subsystem
(src/src/checkpoints/checkpoints.cpp).

The C++ class `cryptonote::checkpoints` holds two ordered maps,
`m_points : std::map<uint64_t, crypto::hash>` and
`m_difficulty_points : std::map<uint64_t, difficulty_type>`.
We model each `std::map` as an association list `List (Nat × Nat)`;
the operations below translate the member functions of the class.
A `crypto::hash` is modelled as the natural number obtained by reading
its 64 hex characters as one big number, and a `difficulty_type`
as a natural number.  All map operations are written so that the
theorems hold for every association list, with no sortedness side
condition; on the sorted lists that `std::map` maintains they agree
with the C++ semantics (in particular `rbegin` of a sorted map is its
greatest key, and `upper_bound` comparisons reduce to key comparisons,
which is how `maxKey` and the filter in
`is_alternative_block_allowed` below arise).
-/

/-- Lookup in an association list: the value bound to key `k`,
mirroring `std::map::find` / `count` / `at`. -/
def mapFind (k : Nat) : List (Nat × Nat) → Option Nat
  | [] => none
  | (k', v) :: t => if k' = k then some v else mapFind k t

/-- Insert-or-assign for a key-ordered association list, mirroring
`m[k] = v` on a `std::map` (`operator[]` followed by assignment). -/
def mapInsert (k v : Nat) : List (Nat × Nat) → List (Nat × Nat)
  | [] => [(k, v)]
  | (k', v') :: t =>
    if k < k' then (k, v) :: (k', v') :: t
    else if k = k' then (k, v) :: t
    else (k', v') :: mapInsert k v t

/-- Greatest key of an association list (0 when empty), mirroring
`rbegin()->first` of a non-empty `std::map`. -/
def maxKey (l : List (Nat × Nat)) : Nat :=
  l.foldl (fun a p => max a p.1) 0

/-- Value of one hex digit, as in the epee hex decoder. -/
def hexDigitVal (c : Char) : Option Nat :=
  if '0' ≤ c ∧ c ≤ '9' then some (c.toNat - 48)
  else if 'a' ≤ c ∧ c ≤ 'f' then some (c.toNat - 87)
  else if 'A' ≤ c ∧ c ≤ 'F' then some (c.toNat - 55)
  else none

/-- Horner evaluation of a hex digit string, failing on the first
non-hex character. -/
def hexValAux (acc : Nat) : List Char → Option Nat
  | [] => some acc
  | c :: t =>
    match hexDigitVal c with
    | none => none
    | some d => hexValAux (16 * acc + d) t

/-- Translation of `epee::string_tools::hex_to_pod` applied to a
`crypto::hash`: the string must be exactly 64 characters, all hex
digits; the decoded 32-byte value is modelled as the number the hex
string denotes. -/
def hex_to_pod (s : String) : Option Nat :=
  if s.length = 64 then hexValAux 0 s.data else none

/-- Horner evaluation of a decimal digit string. -/
def decValAux (acc : Nat) : List Char → Option Nat
  | [] => some acc
  | c :: t =>
    if '0' ≤ c ∧ c ≤ '9' then decValAux (10 * acc + (c.toNat - 48)) t
    else none

/-- Modelled from the spec: the `difficulty_type` string constructor is
an external collaborator (a boost arbitrary-precision integer, its
header is not part of the excerpt); the spec describes it as decoding a
non-negative integer from a numeric string, with malformed input an
error.  We accept a 0x or 0X prefixed hex literal or a decimal literal
and fail (the C++ side throws, caught by `add_checkpoint`) otherwise. -/
def parseDifficulty (s : String) : Option Nat :=
  match s.data with
  | [] => none
  | '0' :: 'x' :: rest => if rest.isEmpty then none else hexValAux 0 rest
  | '0' :: 'X' :: rest => if rest.isEmpty then none else hexValAux 0 rest
  | l => decValAux 0 l

/-- The checkpoints class state: `m_points` maps heights to block
hashes, `m_difficulty_points` maps heights to cumulative difficulties. -/
structure checkpoints where
  m_points : List (Nat × Nat)
  m_difficulty_points : List (Nat × Nat)
  deriving DecidableEq, Repr

/-- The default-constructed (empty) checkpoints object. -/
def emptyCp : checkpoints := ⟨[], []⟩

/-- Difficulty half of `checkpoints::add_checkpoint` (lines 89-105):
runs after `m_points[height] = h`; an empty difficulty string skips it,
a parse failure returns false leaving `m_difficulty_points` untouched,
a differing existing difficulty returns false before the assignment. -/
def add_difficulty (s : checkpoints) (height : Nat) (difficulty_str : String) :
    Bool × checkpoints :=
  if difficulty_str = "" then (true, s)
  else
    match parseDifficulty difficulty_str with
    | none => (false, s)
    | some d =>
      match mapFind height s.m_difficulty_points with
      | some d0 =>
        if d0 = d then
          (true, { s with m_difficulty_points := mapInsert height d s.m_difficulty_points })
        else (false, s)
      | none =>
        (true, { s with m_difficulty_points := mapInsert height d s.m_difficulty_points })

/-- Translation of `checkpoints::add_checkpoint` (lines 77-107): decode
the hex hash (failure returns false), reject a differing hash at an
already anchored height, otherwise assign `m_points[height] = h` and
process the difficulty string. -/
def add_checkpoint (s : checkpoints) (height : Nat)
    (hash_str : String) (difficulty_str : String) : Bool × checkpoints :=
  match hex_to_pod hash_str with
  | none => (false, s)
  | some h =>
    match mapFind height s.m_points with
    | some h0 =>
      if h0 = h then
        add_difficulty { s with m_points := mapInsert height h s.m_points } height difficulty_str
      else (false, s)
    | none =>
      add_difficulty { s with m_points := mapInsert height h s.m_points } height difficulty_str

/-- Translation of `checkpoints::is_in_checkpoint_zone` (lines 109-112):
non-empty map and height at most the greatest anchored height
(`(--m_points.end())->first`). -/
def is_in_checkpoint_zone (s : checkpoints) (height : Nat) : Bool :=
  !s.m_points.isEmpty && decide (height ≤ maxKey s.m_points)

/-- Translation of `checkpoints::check_block` (lines 114-130), returning
the pair (return value, is_a_checkpoint). -/
def check_block (s : checkpoints) (height : Nat) (h : Nat) : Bool × Bool :=
  match mapFind height s.m_points with
  | none => (true, false)
  | some h0 => (decide (h0 = h), true)

/-- State-passing form of `check_block`: the C++ member is `const`, so
the store component of the result is the input store. -/
def check_block_state (s : checkpoints) (height : Nat) (h : Nat) :
    (Bool × Bool) × checkpoints :=
  (check_block s height h, s)

/-- Translation of `checkpoints::is_alternative_block_allowed`
(lines 139-152).  On the ordered map, `upper_bound(blockchain_height)`
equals `begin()` exactly when no key is at most `blockchain_height`,
and otherwise the element before it carries the greatest key at most
`blockchain_height`. -/
def is_alternative_block_allowed (s : checkpoints)
    (blockchain_height block_height : Nat) : Bool :=
  if block_height = 0 then false
  else
    let below := s.m_points.filter fun p => decide (p.1 ≤ blockchain_height)
    if below.isEmpty then true
    else decide (maxKey below < block_height)

/-- Translation of `checkpoints::get_max_height` (lines 154-159). -/
def get_max_height (s : checkpoints) : Nat :=
  if s.m_points.isEmpty then 0 else maxKey s.m_points

/-- Loop of `checkpoints::check_for_conflicts` (lines 171-181) over the
points of the other store: return false at the first common height
whose hash differs. -/
def conflictScan (pts : List (Nat × Nat)) : List (Nat × Nat) → Bool
  | [] => true
  | (k, v) :: t =>
    match mapFind k pts with
    | some v0 => if v0 = v then conflictScan pts t else false
    | none => conflictScan pts t

/-- Translation of `checkpoints::check_for_conflicts`: the member is
`const`, so in state-passing form the store is returned unchanged. -/
def check_for_conflicts (s other : checkpoints) : Bool × checkpoints :=
  (conflictScan s.m_points other.m_points, s)

/-- A record of the json checkpoints file (`t_hashline`, lines 52-60). -/
structure t_hashline where
  height : Nat
  hash : String
  deriving DecidableEq, Repr

/-- Loop of `checkpoints::load_checkpoints_from_json` (lines 251-263):
records at or below the recorded previous maximum height are skipped,
the rest go through `ADD_CHECKPOINT(height, blockhash)`.  Modelled from
the spec for the part outside the excerpt: the `ADD_CHECKPOINT` macro
(checkpoints.h) calls `add_checkpoint` with the default empty
difficulty string and returns false from the enclosing function when
the insertion fails, which is how a decode failure or insertion
conflict fails the whole load. -/
def loadLines (prev : Nat) : checkpoints → List t_hashline → Bool × checkpoints
  | s, [] => (true, s)
  | s, l :: t =>
    if l.height ≤ prev then loadLines prev s t
    else
      match add_checkpoint s l.height l.hash "" with
      | (true, s') => loadLines prev s' t
      | (false, s') => (false, s')

/-- Translation of `checkpoints::load_checkpoints_from_json`
(lines 232-266).  The file system and the json codec are external
collaborators; their outcome is the argument: `none` when the file does
not exist (the function succeeds leaving the store alone), `some none`
when `load_t_from_json_file` fails (the function fails), and
`some (some lines)` when it parses. -/
def load_checkpoints_from_json (file : Option (Option (List t_hashline)))
    (s : checkpoints) : Bool × checkpoints :=
  match file with
  | none => (true, s)
  | some none => (false, s)
  | some (some lines) => loadLines (get_max_height s) s lines

/-- Network selector (`network_type`). -/
inductive network_type where
  | MAINNET
  | TESTNET
  | STAGENET
  deriving DecidableEq, Repr

/-- Translation of `checkpoints::load_checkpoints_from_dns`
(lines 268-313): the function executes `return false;` on its second
statement, before any record is fetched or any checkpoint added, so
every later line is unreachable and the store is never touched. -/
def load_checkpoints_from_dns (s : checkpoints) (_nettype : network_type) :
    Bool × checkpoints :=
  (false, s)

/-- Translation of `checkpoints::load_new_checkpoints` (lines 315-326):
the json load always runs; when `dns` is set the dns load also runs and
its result is conjoined. -/
def load_new_checkpoints (file : Option (Option (List t_hashline)))
    (s : checkpoints) (nettype : network_type) (dns : Bool) :
    Bool × checkpoints :=
  let r1 := load_checkpoints_from_json file s
  if dns then
    let r2 := load_checkpoints_from_dns r1.2 nettype
    (r1.1 && r2.1, r2.2)
  else r1

/-- Modelled from the spec: `insert_hash_anchor` of section 4.1 (this
operation exists in the spec only; the source has no separate
hash-only insert).  Absent height: insert and succeed; equal hash:
succeed unchanged; differing hash: fail unchanged. -/
def insert_hash_anchor (s : checkpoints) (height h : Nat) : Bool × checkpoints :=
  match mapFind height s.m_points with
  | none => (true, { s with m_points := mapInsert height h s.m_points })
  | some h0 => if h0 = h then (true, s) else (false, s)

/-- Modelled from the spec: the `merge` of section 4.1, applying
`insert_hash_anchor` for every hash anchor of the other store and
aborting at the first conflict.  Used to compare the spec reading of
claim C7 against the source function `check_for_conflicts`. -/
def mergeAnchors : checkpoints → List (Nat × Nat) → Bool × checkpoints
  | s, [] => (true, s)
  | s, (k, v) :: t =>
    match insert_hash_anchor s k v with
    | (true, s') => mergeAnchors s' t
    | (false, s') => (false, s')

/-- Modelled from the spec: merge of another store, section 4.1. -/
def merge_per_spec (s other : checkpoints) : Bool × checkpoints :=
  mergeAnchors s other.m_points

/-- A 64 character hex string decoding to the hash value 1. -/
def hexOne : String :=
  "0000000000000000000000000000000000000000000000000000000000000001"

/-- A 64 character hex string decoding to the hash value 2. -/
def hexTwo : String :=
  "0000000000000000000000000000000000000000000000000000000000000002"

/-- A malformed hash string, rejected by the hex decoder. -/
def badHex : String := "zz"

/-- A store with hash anchors exactly at heights 500, 1000 and 1500, as
in the example of the spec (hash values arbitrary). -/
def cpEx : checkpoints := ⟨[(500, 11), (1000, 12), (1500, 13)], []⟩

/-- A store with one hash anchor at height 5 with hash value 1. -/
def cpOne : checkpoints := ⟨[(5, 1)], []⟩

/-- A store with a hash anchor and a difficulty anchor at height 5. -/
def cpConflict : checkpoints := ⟨[(5, 1)], [(5, 9)]⟩

/-- The store produced by add_checkpoint of (5, hexOne, "10") on the
empty store. -/
def cpIdem : checkpoints := ⟨[(5, 1)], [(5, 10)]⟩

/-- A parsed json file whose first record is insertable and whose
second record has a malformed hash. -/
def fileC4 : List t_hashline := [⟨10, hexOne⟩, ⟨20, badHex⟩]

/-- A parsed json file whose first record has a malformed hash and
whose second record is a valid fresh anchor. -/
def fileC8 : List t_hashline := [⟨10, badHex⟩, ⟨20, hexOne⟩]

/-! ### Lemmas about the association-list operations -/

theorem mapFind_mapInsert_self (k v : Nat) (l : List (Nat × Nat)) :
    mapFind k (mapInsert k v l) = some v := by
  induction l with
  | nil => simp [mapInsert, mapFind]
  | cons p t ih =>
    obtain ⟨k', v'⟩ := p
    by_cases h1 : k < k'
    · simp [mapInsert, h1, mapFind]
    · by_cases h2 : k = k'
      · simp [mapInsert, h1, h2, mapFind]
      · have hne : k' ≠ k := fun h => h2 h.symm
        simp [mapInsert, h1, h2, mapFind, hne, ih]

theorem mapFind_mapInsert_ne (k k0 v : Nat) (hne : k ≠ k0) (l : List (Nat × Nat)) :
    mapFind k0 (mapInsert k v l) = mapFind k0 l := by
  induction l with
  | nil =>
    simp only [mapInsert, mapFind]
    rw [if_neg hne]
  | cons p t ih =>
    obtain ⟨k', v'⟩ := p
    by_cases h1 : k < k'
    · simp only [mapInsert, if_pos h1, mapFind]
      rw [if_neg hne]
    · by_cases h2 : k = k'
      · subst h2
        simp only [mapInsert, if_neg h1, if_pos rfl, mapFind]
        rw [if_neg hne, if_neg hne]
      · simp only [mapInsert, if_neg h1, if_neg h2, mapFind]
        by_cases h3 : k' = k0
        · rw [if_pos h3, if_pos h3]
        · rw [if_neg h3, if_neg h3, ih]

theorem mapInsert_idem (k v : Nat) (l : List (Nat × Nat)) :
    mapInsert k v (mapInsert k v l) = mapInsert k v l := by
  induction l with
  | nil => simp [mapInsert]
  | cons p t ih =>
    obtain ⟨k', v'⟩ := p
    by_cases h1 : k < k'
    · simp [mapInsert, h1]
    · by_cases h2 : k = k'
      · simp [mapInsert, h1, h2]
      · simp [mapInsert, h1, h2, ih]

theorem foldl_max_init_le (l : List (Nat × Nat)) :
    ∀ acc : Nat, acc ≤ l.foldl (fun a q => max a q.1) acc := by
  induction l with
  | nil => simp
  | cons p t ih =>
    intro acc
    simp only [List.foldl_cons]
    exact le_trans (le_max_left acc p.1) (ih _)

theorem le_foldl_max :
    ∀ (l : List (Nat × Nat)) (acc : Nat) (p : Nat × Nat), p ∈ l →
      p.1 ≤ l.foldl (fun a q => max a q.1) acc := by
  intro l
  induction l with
  | nil => intro acc p hp; cases hp
  | cons q t ih =>
    intro acc p hp
    rcases List.mem_cons.mp hp with h | h
    · subst h
      simp only [List.foldl_cons]
      exact le_trans (le_max_right acc p.1) (foldl_max_init_le t _)
    · exact ih _ p h

theorem foldl_max_le :
    ∀ (l : List (Nat × Nat)) (acc b : Nat), acc ≤ b → (∀ p ∈ l, p.1 ≤ b) →
      l.foldl (fun a q => max a q.1) acc ≤ b := by
  intro l
  induction l with
  | nil => intro acc b h _; simpa using h
  | cons q t ih =>
    intro acc b hab hall
    simp only [List.foldl_cons]
    apply ih
    · exact max_le hab (hall q (List.mem_cons_self q t))
    · intro p hp; exact hall p (List.mem_cons_of_mem _ hp)

theorem foldl_max_mem :
    ∀ (l : List (Nat × Nat)) (acc : Nat),
      l.foldl (fun a q => max a q.1) acc = acc ∨
        ∃ p ∈ l, p.1 = l.foldl (fun a q => max a q.1) acc := by
  intro l
  induction l with
  | nil => intro acc; left; rfl
  | cons q t ih =>
    intro acc
    simp only [List.foldl_cons]
    rcases ih (max acc q.1) with h | ⟨p, hp, he⟩
    · rw [h]
      rcases max_choice acc q.1 with h1 | h1
      · left; exact h1
      · right; exact ⟨q, List.mem_cons_self q t, h1.symm⟩
    · right; exact ⟨p, List.mem_cons_of_mem _ hp, he⟩

theorem le_maxKey (l : List (Nat × Nat)) (p : Nat × Nat) (hp : p ∈ l) :
    p.1 ≤ maxKey l :=
  le_foldl_max l 0 p hp

theorem maxKey_le (l : List (Nat × Nat)) (b : Nat) (hall : ∀ p ∈ l, p.1 ≤ b) :
    maxKey l ≤ b :=
  foldl_max_le l 0 b (Nat.zero_le b) hall

theorem maxKey_mem (l : List (Nat × Nat)) (hne : l ≠ []) :
    ∃ p ∈ l, p.1 = maxKey l := by
  obtain ⟨q, t, rfl⟩ := List.exists_cons_of_ne_nil hne
  unfold maxKey
  simp only [List.foldl_cons]
  have h0 : max 0 q.1 = q.1 := max_eq_right (Nat.zero_le _)
  rw [h0]
  rcases foldl_max_mem t q.1 with h | ⟨p, hp, he⟩
  · exact ⟨q, List.mem_cons_self q t, h.symm⟩
  · exact ⟨p, List.mem_cons_of_mem _ hp, he⟩

/-! ### Lemmas about add_checkpoint and the loaders -/

theorem add_difficulty_empty (s : checkpoints) (height : Nat) :
    add_difficulty s height "" = (true, s) := by
  simp [add_difficulty]

theorem add_difficulty_points_eq (s : checkpoints) (height : Nat) (d : String) :
    (add_difficulty s height d).2.m_points = s.m_points := by
  unfold add_difficulty
  split
  · rfl
  · split
    · rfl
    · split
      · split
        · rfl
        · rfl
      · rfl

theorem add_difficulty_true (s s1 : checkpoints) (height : Nat) (d : String)
    (h : add_difficulty s height d = (true, s1)) :
    add_difficulty s1 height d = (true, s1) := by
  by_cases hd : d = ""
  · subst hd
    rw [add_difficulty_empty] at h
    injection h with _ h2
    subst h2
    exact add_difficulty_empty s height
  · simp only [add_difficulty, if_neg hd] at h ⊢
    cases hp : parseDifficulty d with
    | none =>
      rw [hp] at h
      simp at h
    | some dv =>
      rw [hp] at h
      simp only [] at h ⊢
      cases hf : mapFind height s.m_difficulty_points with
      | none =>
        rw [hf] at h
        simp only [] at h
        injection h with _ h2
        subst h2
        simp [mapFind_mapInsert_self, mapInsert_idem]
      | some d0 =>
        rw [hf] at h
        simp only [] at h
        by_cases he : d0 = dv
        · rw [if_pos he] at h
          injection h with _ h2
          subst h2
          simp [mapFind_mapInsert_self, mapInsert_idem]
        · rw [if_neg he] at h
          simp at h

theorem add_checkpoint_fail_empty (s s2 : checkpoints) (height : Nat) (hs : String)
    (h : add_checkpoint s height hs "" = (false, s2)) : s2 = s := by
  simp only [add_checkpoint] at h
  cases hh : hex_to_pod hs with
  | none =>
    rw [hh] at h
    simp only [] at h
    injection h with _ h2
    exact h2.symm
  | some hv =>
    rw [hh] at h
    simp only [] at h
    cases hf : mapFind height s.m_points with
    | none =>
      rw [hf] at h
      simp only [] at h
      rw [add_difficulty_empty] at h
      simp at h
    | some h0 =>
      rw [hf] at h
      simp only [] at h
      by_cases he : h0 = hv
      · rw [if_pos he, add_difficulty_empty] at h
        simp at h
      · rw [if_neg he] at h
        injection h with _ h2
        exact h2.symm

theorem add_checkpoint_true_empty (s s1 : checkpoints) (height : Nat) (hs : String)
    (h : add_checkpoint s height hs "" = (true, s1)) :
    ∃ hv, hex_to_pod hs = some hv ∧
      s1.m_points = mapInsert height hv s.m_points ∧
      (∀ v, mapFind height s.m_points = some v → v = hv) ∧
      s1.m_difficulty_points = s.m_difficulty_points := by
  simp only [add_checkpoint] at h
  cases hh : hex_to_pod hs with
  | none =>
    rw [hh] at h
    simp at h
  | some hv =>
    rw [hh] at h
    simp only [] at h
    cases hf : mapFind height s.m_points with
    | none =>
      rw [hf] at h
      simp only [] at h
      rw [add_difficulty_empty] at h
      injection h with _ h2
      subst h2
      refine ⟨hv, rfl, rfl, ?_, rfl⟩
      intro v hv0
      cases hv0
    | some h0 =>
      rw [hf] at h
      simp only [] at h
      by_cases he : h0 = hv
      · rw [if_pos he, add_difficulty_empty] at h
        injection h with _ h2
        subst h2
        refine ⟨hv, rfl, rfl, ?_, rfl⟩
        intro v hv0
        have h3 : h0 = v := Option.some.inj hv0
        rw [← h3, he]
      · rw [if_neg he] at h
        simp at h

theorem conflictScan_true_iff (pts : List (Nat × Nat)) :
    ∀ l : List (Nat × Nat), conflictScan pts l = true ↔
      ∀ k v, (k, v) ∈ l → ∀ v0, mapFind k pts = some v0 → v0 = v := by
  intro l
  induction l with
  | nil =>
    constructor
    · intro _ k v hkv
      cases hkv
    · intro _
      rfl
  | cons q t ih =>
    obtain ⟨k, v⟩ := q
    constructor
    · intro h k0 w hkw v0 hv0
      rcases List.mem_cons.mp hkw with heq | hmem
      · injection heq with h1 h2
        subst h1
        subst h2
        simp only [conflictScan, hv0] at h
        by_cases hvv : v0 = w
        · exact hvv
        · rw [if_neg hvv] at h
          cases h
      · have ht : conflictScan pts t = true := by
          simp only [conflictScan] at h
          split at h
          · split at h
            · exact h
            · cases h
          · exact h
        exact (ih.mp ht) k0 w hmem v0 hv0
    · intro h
      simp only [conflictScan]
      cases hf : mapFind k pts with
      | none =>
        simp only []
        exact ih.mpr fun k0 w hm v0 hv0 => h k0 w (List.mem_cons_of_mem _ hm) v0 hv0
      | some v0 =>
        simp only []
        have hv : v0 = v := h k v (List.mem_cons_self _ _) v0 hf
        rw [if_pos hv]
        exact ih.mpr fun k0 w hm w0 hw0 => h k0 w (List.mem_cons_of_mem _ hm) w0 hw0

theorem loadLines_nil (prev : Nat) (s : checkpoints) :
    loadLines prev s [] = (true, s) := rfl

theorem loadLines_skip (prev : Nat) (s : checkpoints) (l : t_hashline)
    (t : List t_hashline) (hl : l.height ≤ prev) :
    loadLines prev s (l :: t) = loadLines prev s t := by
  simp only [loadLines, if_pos hl]

theorem loadLines_preserve (prev : Nat) :
    ∀ (lines : List t_hashline) (s s' : checkpoints) (k v : Nat),
      loadLines prev s lines = (true, s') →
      mapFind k s.m_points = some v →
      mapFind k s'.m_points = some v := by
  intro lines
  induction lines with
  | nil =>
    intro s s' k v h hf
    injection h with _ h2
    rw [← h2]
    exact hf
  | cons l t ih =>
    intro s s' k v h hf
    simp only [loadLines] at h
    by_cases hl : l.height ≤ prev
    · rw [if_pos hl] at h
      exact ih s s' k v h hf
    · rw [if_neg hl] at h
      rcases hadd : add_checkpoint s l.height l.hash "" with ⟨r, s1⟩
      rw [hadd] at h
      cases r with
      | false => simp at h
      | true =>
        simp only [] at h
        apply ih s1 s' k v h
        obtain ⟨hv, hhex, hpts, himp, hdiff⟩ :=
          add_checkpoint_true_empty s s1 l.height l.hash hadd
        by_cases hk : l.height = k
        · subst hk
          have hveq : v = hv := himp v hf
          rw [hpts, mapFind_mapInsert_self, hveq]
        · rw [hpts, mapFind_mapInsert_ne _ _ _ hk, hf]

theorem isEmpty_false_of_ne_nil (l : List (Nat × Nat)) (h : l ≠ []) :
    l.isEmpty = false := by
  cases l with
  | nil => exact absurd rfl h
  | cons a t => rfl

theorem loadLines_append_true (prev : Nat) :
    ∀ (a : List t_hashline) (s s1 : checkpoints) (b : List t_hashline),
      loadLines prev s a = (true, s1) →
      loadLines prev s (a ++ b) = loadLines prev s1 b := by
  intro a
  induction a with
  | nil =>
    intro s s1 b h
    injection h with _ h2
    rw [List.nil_append, h2]
  | cons l t ih =>
    intro s s1 b h
    simp only [List.cons_append, loadLines] at h ⊢
    by_cases hl : l.height ≤ prev
    · rw [if_pos hl] at h ⊢
      exact ih s s1 b h
    · rw [if_neg hl] at h ⊢
      rcases hadd : add_checkpoint s l.height l.hash "" with ⟨r, s2⟩
      rw [hadd] at h
      cases r with
      | false => simp at h
      | true =>
        simp only [] at h ⊢
        exact ih s2 s1 b h

theorem loadLines_success_inserted (prev : Nat) :
    ∀ (lines : List t_hashline) (s s' : checkpoints),
      loadLines prev s lines = (true, s') →
      ∀ r ∈ lines, prev < r.height →
        ∃ hv, hex_to_pod r.hash = some hv ∧ mapFind r.height s'.m_points = some hv := by
  intro lines
  induction lines with
  | nil =>
    intro s s' _ r hr
    cases hr
  | cons l t ih =>
    intro s s' h r hr hgt
    simp only [loadLines] at h
    by_cases hl : l.height ≤ prev
    · rw [if_pos hl] at h
      rcases List.mem_cons.mp hr with rfl | hmem
      · exact absurd hgt (Nat.not_lt.mpr hl)
      · exact ih s s' h r hmem hgt
    · rw [if_neg hl] at h
      rcases hadd : add_checkpoint s l.height l.hash "" with ⟨rr, s1⟩
      rw [hadd] at h
      cases rr with
      | false => simp at h
      | true =>
        simp only [] at h
        rcases List.mem_cons.mp hr with rfl | hmem
        · obtain ⟨hv, hhex, hpts, _, _⟩ :=
            add_checkpoint_true_empty s s1 r.height r.hash hadd
          refine ⟨hv, hhex, ?_⟩
          apply loadLines_preserve prev t s1 s' r.height hv h
          rw [hpts]
          exact mapFind_mapInsert_self _ _ _
        · exact ih s1 s' h r hmem hgt

theorem add_difficulty_fail (s : checkpoints) (height : Nat) (d : String)
    (hne : d ≠ "")
    (hbad : parseDifficulty d = none ∨
      ∃ dv d0, parseDifficulty d = some dv ∧
        mapFind height s.m_difficulty_points = some d0 ∧ d0 ≠ dv) :
    (add_difficulty s height d).1 = false := by
  simp only [add_difficulty, if_neg hne]
  rcases hbad with hb | ⟨dv, d0, hp, hf, hd⟩
  · simp [hb]
  · simp [hp, hf, hd]

theorem add_checkpoint_reduces (s : checkpoints) (height : Nat)
    (hash_str d : String) (hv : Nat)
    (hx : hex_to_pod hash_str = some hv)
    (hok : mapFind height s.m_points = none ∨ mapFind height s.m_points = some hv) :
    add_checkpoint s height hash_str d =
      add_difficulty { s with m_points := mapInsert height hv s.m_points } height d := by
  simp only [add_checkpoint, hx]
  rcases hok with hok | hok
  · simp [hok]
  · simp [hok]

/-! ### Claim theorems -/

/-- C10: on an empty store get_max_height returns 0 and
is_in_checkpoint_zone is false for every height; on a non-empty store
is_in_checkpoint_zone height holds exactly when height is at most the
greatest anchored height, which is what get_max_height returns. -/
theorem max_height_zone_spec (s : checkpoints) (height : Nat) :
    (s.m_points = [] → get_max_height s = 0 ∧ is_in_checkpoint_zone s height = false)
    ∧ (s.m_points ≠ [] →
        (is_in_checkpoint_zone s height = true ↔ height ≤ get_max_height s))
    ∧ (∀ p ∈ s.m_points, p.1 ≤ get_max_height s)
    ∧ (s.m_points ≠ [] → ∃ p ∈ s.m_points, p.1 = get_max_height s) := by
  refine ⟨?_, ?_, ?_, ?_⟩
  · intro he
    constructor
    · simp [get_max_height, he]
    · simp [is_in_checkpoint_zone, he]
  · intro hne
    have hno : s.m_points.isEmpty = false := isEmpty_false_of_ne_nil _ hne
    simp [is_in_checkpoint_zone, get_max_height, hno]
  · intro p hp
    have hne : s.m_points ≠ [] := List.ne_nil_of_mem hp
    have hno : s.m_points.isEmpty = false := isEmpty_false_of_ne_nil _ hne
    simp only [get_max_height, hno]
    simp only [Bool.false_eq_true, if_false]
    exact le_maxKey _ p hp
  · intro hne
    have hno : s.m_points.isEmpty = false := isEmpty_false_of_ne_nil _ hne
    simp only [get_max_height, hno]
    simp only [Bool.false_eq_true, if_false]
    exact maxKey_mem _ hne

/-- Witness for C10: instantiation on the example store at height 1200,
inside the checkpoint zone since the greatest anchor is at 1500. -/
theorem max_height_zone_spec_witness : is_in_checkpoint_zone cpEx 1200 = true := by
  have h := (max_height_zone_spec cpEx 1200).2.1 (by decide)
  exact h.mpr (by decide)

/-- C2: check_block returns (ok true, anchored false) at an unanchored
height, (true, true) when the anchor equals the candidate hash, and
(false, true) when it differs; the store is never modified. -/
theorem check_block_spec (s : checkpoints) (height h : Nat) :
    (mapFind height s.m_points = none → check_block s height h = (true, false))
    ∧ (mapFind height s.m_points = some h → check_block s height h = (true, true))
    ∧ (∀ h0, mapFind height s.m_points = some h0 → h0 ≠ h →
        check_block s height h = (false, true))
    ∧ (check_block_state s height h).2 = s := by
  refine ⟨?_, ?_, ?_, rfl⟩
  · intro hf
    simp [check_block, hf]
  · intro hf
    simp [check_block, hf]
  · intro h0 hf hne
    simp [check_block, hf, hne]

/-- Witness for C2: concrete checks on the example store with its
anchor at height 1000. -/
theorem check_block_spec_witness :
    check_block cpEx 1000 12 = (true, true)
    ∧ check_block cpEx 1000 99 = (false, true)
    ∧ check_block cpEx 777 12 = (true, false) :=
  ⟨(check_block_spec cpEx 1000 12).2.1 (by decide),
   (check_block_spec cpEx 1000 99).2.2.1 12 (by decide) (by decide),
   (check_block_spec cpEx 777 12).1 (by decide)⟩

/-- C3: inserting at an anchored height with a valid hex hash that
decodes to a different value fails and leaves the whole store, both
anchor maps included, exactly as before (for every difficulty
argument). -/
theorem add_checkpoint_conflict_rejected (s : checkpoints) (height : Nat)
    (hash_str difficulty_str : String) (h1 h2 : Nat)
    (hf : mapFind height s.m_points = some h1)
    (hx : hex_to_pod hash_str = some h2)
    (hne : h2 ≠ h1) :
    add_checkpoint s height hash_str difficulty_str = (false, s) := by
  simp only [add_checkpoint, hx, hf]
  rw [if_neg fun he => hne he.symm]

/-- Witness for C3: a conflicting insert at height 5 on a store holding
hash 1 and difficulty 9 there. -/
theorem add_checkpoint_conflict_rejected_witness :
    add_checkpoint cpConflict 5 hexTwo "7" = (false, cpConflict) :=
  add_checkpoint_conflict_rejected cpConflict 5 hexTwo "7" 1 2
    (by decide) (by decide) (by decide)

/-- C6: the dns loader is a kill-switch returning failure on any store
and network without touching the store; consequently
load_new_checkpoints fails whenever the dns flag is set, equals the
json load when it is clear, and its resulting store is always the
store produced by the json load. -/
theorem dns_killswitch_spec (s : checkpoints) (nettype : network_type)
    (file : Option (Option (List t_hashline))) (dns : Bool) :
    load_checkpoints_from_dns s nettype = (false, s)
    ∧ (load_new_checkpoints file s nettype true).1 = false
    ∧ load_new_checkpoints file s nettype false = load_checkpoints_from_json file s
    ∧ (load_new_checkpoints file s nettype dns).2 =
        (load_checkpoints_from_json file s).2 := by
  refine ⟨rfl, ?_, rfl, ?_⟩
  · simp [load_new_checkpoints, load_checkpoints_from_dns]
  · cases dns <;> simp [load_new_checkpoints, load_checkpoints_from_dns]

/-- C1: is_alternative_block_allowed is false for fork height 0, true
whenever the chain height is strictly below every anchored height, and
otherwise true exactly when the fork height is strictly greater than
the greatest anchored height at or below the chain height; the three
example queries of the spec on anchors at 500, 1000 and 1500 behave as
stated. -/
theorem alt_block_allowed_spec (s : checkpoints) (chain fork : Nat) :
    (fork = 0 → is_alternative_block_allowed s chain fork = false)
    ∧ ((∀ p ∈ s.m_points, chain < p.1) → fork ≠ 0 →
        is_alternative_block_allowed s chain fork = true)
    ∧ (∀ a, a ∈ s.m_points.map Prod.fst → a ≤ chain →
        (∀ b ∈ s.m_points.map Prod.fst, b ≤ chain → b ≤ a) → fork ≠ 0 →
        (is_alternative_block_allowed s chain fork = true ↔ a < fork))
    ∧ is_alternative_block_allowed cpEx 400 100 = true
    ∧ is_alternative_block_allowed cpEx 1600 1500 = false
    ∧ is_alternative_block_allowed cpEx 1600 1501 = true := by
  refine ⟨?_, ?_, ?_, by decide, by decide, by decide⟩
  · intro h0
    simp [is_alternative_block_allowed, h0]
  · intro hall hfork
    have hnil : s.m_points.filter (fun p => decide (p.1 ≤ chain)) = [] := by
      rw [List.filter_eq_nil_iff]
      intro p hp
      simp only [decide_eq_true_eq]
      exact Nat.not_le.mpr (hall p hp)
    simp [is_alternative_block_allowed, hfork, hnil]
  · intro a ha hale hub hfork
    obtain ⟨p, hp, hpa⟩ := List.mem_map.mp ha
    have hpmem : p ∈ s.m_points.filter (fun q => decide (q.1 ≤ chain)) := by
      rw [List.mem_filter]
      refine ⟨hp, ?_⟩
      rw [hpa]
      simpa using hale
    have hne : s.m_points.filter (fun q => decide (q.1 ≤ chain)) ≠ [] :=
      List.ne_nil_of_mem hpmem
    have hempty : (s.m_points.filter (fun q => decide (q.1 ≤ chain))).isEmpty = false :=
      isEmpty_false_of_ne_nil _ hne
    have hmax : maxKey (s.m_points.filter (fun q => decide (q.1 ≤ chain))) = a := by
      apply le_antisymm
      · apply maxKey_le
        intro q hq
        rw [List.mem_filter] at hq
        obtain ⟨hq1, hq2⟩ := hq
        have hqle : q.1 ≤ chain := by simpa using hq2
        exact hub q.1 (List.mem_map.mpr ⟨q, hq1, rfl⟩) hqle
      · calc a = p.1 := hpa.symm
          _ ≤ maxKey _ := le_maxKey _ p hpmem
    simp [is_alternative_block_allowed, hfork, hempty, hmax]

/-- Witness for C1: on the example store, a fork at height 600 with the
chain at height 700 is allowed, via the greatest anchor at or below
700, namely 500. -/
theorem alt_block_allowed_spec_witness :
    is_alternative_block_allowed cpEx 700 600 = true := by
  have h := (alt_block_allowed_spec cpEx 700 600).2.2.1 500
    (by decide) (by decide) (by decide) (by decide)
  exact h.mpr (by decide)

/-- C9: when an insertion of (height, hash, difficulty) succeeds,
repeating the identical insertion succeeds as well and returns the
very same store, so a repeated insertion is a successful no-op. -/
theorem add_checkpoint_idem (s s1 : checkpoints) (height : Nat)
    (hash_str difficulty_str : String)
    (h : add_checkpoint s height hash_str difficulty_str = (true, s1)) :
    add_checkpoint s1 height hash_str difficulty_str = (true, s1) := by
  simp only [add_checkpoint] at h ⊢
  cases hh : hex_to_pod hash_str with
  | none =>
    rw [hh] at h
    simp at h
  | some hv =>
    rw [hh] at h
    simp only [] at h ⊢
    cases hf : mapFind height s.m_points with
    | none =>
      rw [hf] at h
      simp only [] at h
      have hpts : s1.m_points = mapInsert height hv s.m_points := by
        have h2 := add_difficulty_points_eq
          { s with m_points := mapInsert height hv s.m_points } height difficulty_str
        rw [h] at h2
        exact h2
      rw [hpts, mapFind_mapInsert_self]
      simp only []
      rw [if_pos trivial, mapInsert_idem, ← hpts]
      exact add_difficulty_true _ s1 height difficulty_str h
    | some h0 =>
      rw [hf] at h
      simp only [] at h
      by_cases he : h0 = hv
      · rw [if_pos he] at h
        have hpts : s1.m_points = mapInsert height hv s.m_points := by
          have h2 := add_difficulty_points_eq
            { s with m_points := mapInsert height hv s.m_points } height difficulty_str
          rw [h] at h2
          exact h2
        rw [hpts, mapFind_mapInsert_self]
        simp only []
        rw [if_pos trivial, mapInsert_idem, ← hpts]
        exact add_difficulty_true _ s1 height difficulty_str h
      · rw [if_neg he] at h
        simp at h

/-- Witness for C9: inserting (5, hexOne, "10") into the empty store
succeeds, and repeating it returns the same store again. -/
theorem add_checkpoint_idem_witness :
    add_checkpoint cpIdem 5 hexOne "10" = (true, cpIdem) :=
  add_checkpoint_idem emptyCp cpIdem 5 hexOne "10" (by decide)

/-- Counterexample to C5 as stated: with hash 1 already anchored at
height 5, calling add_checkpoint with a valid hex hash decoding to 2
and the unparsable non-empty difficulty string "z" does return
failure, but (5, 2) has not been stored: the hash conflict is detected
first and the store is completely unchanged. -/
theorem add_checkpoint_fail_unstored_cex :
    hex_to_pod hexTwo = some 2
    ∧ parseDifficulty "z" = none
    ∧ (add_checkpoint cpOne 5 hexTwo "z").1 = false
    ∧ mapFind 5 (add_checkpoint cpOne 5 hexTwo "z").2.m_points ≠ some 2
    ∧ (add_checkpoint cpOne 5 hexTwo "z").2 = cpOne := by decide

/-- C5 amended: when the height carries no conflicting hash anchor
(absent or anchored with the same hash), a call with a valid hex hash
and a non-empty difficulty string that fails to parse or conflicts
with the existing difficulty anchor returns failure, yet the
(height, hash) pair has already been stored in the hash-anchor map. -/
theorem add_checkpoint_difficulty_failure_mutates (s : checkpoints) (height : Nat)
    (hash_str difficulty_str : String) (hv : Nat)
    (hx : hex_to_pod hash_str = some hv)
    (hok : mapFind height s.m_points = none ∨ mapFind height s.m_points = some hv)
    (hne : difficulty_str ≠ "")
    (hbad : parseDifficulty difficulty_str = none ∨
      ∃ dv d0, parseDifficulty difficulty_str = some dv ∧
        mapFind height s.m_difficulty_points = some d0 ∧ d0 ≠ dv) :
    (add_checkpoint s height hash_str difficulty_str).1 = false
    ∧ mapFind height (add_checkpoint s height hash_str difficulty_str).2.m_points
        = some hv := by
  rw [add_checkpoint_reduces s height hash_str difficulty_str hv hx hok]
  constructor
  · exact add_difficulty_fail _ height difficulty_str hne hbad
  · rw [add_difficulty_points_eq]
    exact mapFind_mapInsert_self height hv s.m_points

/-- Witness for the amended C5: inserting (5, hexOne, "z") into the
empty store fails on the difficulty parse yet stores the hash. -/
theorem add_checkpoint_difficulty_failure_mutates_witness :
    (add_checkpoint emptyCp 5 hexOne "z").1 = false
    ∧ mapFind 5 (add_checkpoint emptyCp 5 hexOne "z").2.m_points = some 1 :=
  add_checkpoint_difficulty_failure_mutates emptyCp 5 hexOne "z" 1
    (by decide) (Or.inl (by decide)) (by decide) (Or.inl (by decide))

/-- Counterexample to C7 as stated: check_for_conflicts does not apply
insert_hash_anchor to the anchors of the other store.  Merging the
store holding anchor (5, 1) into the empty store would, per the spec
merge, insert that anchor; check_for_conflicts succeeds but returns
the empty store untouched, with no anchor at height 5. -/
theorem check_for_conflicts_no_insert_cex :
    (check_for_conflicts emptyCp cpOne).1 = true
    ∧ (merge_per_spec emptyCp cpOne).1 = true
    ∧ mapFind 5 (merge_per_spec emptyCp cpOne).2.m_points = some 1
    ∧ mapFind 5 (check_for_conflicts emptyCp cpOne).2.m_points = none
    ∧ (check_for_conflicts emptyCp cpOne).2 ≠ (merge_per_spec emptyCp cpOne).2 := by
  decide

/-- C7 amended: check_for_conflicts never modifies this store; it
succeeds exactly when every hash anchor of the other store whose
height this store also anchors carries the same hash (so it fails as
soon as some common height differs), and difficulty anchors of either
store play no part in the outcome. -/
theorem check_for_conflicts_spec (s other : checkpoints) :
    (check_for_conflicts s other).2 = s
    ∧ ((check_for_conflicts s other).1 = true ↔
        ∀ k v, (k, v) ∈ other.m_points → ∀ v0, mapFind k s.m_points = some v0 → v0 = v)
    ∧ (∀ d1 d2 : List (Nat × Nat),
        (check_for_conflicts { s with m_difficulty_points := d1 }
            { other with m_difficulty_points := d2 }).1 =
          (check_for_conflicts s other).1) :=
  ⟨rfl, conflictScan_true_iff s.m_points other.m_points, fun _ _ => rfl⟩

/-- Witness for the amended C7: two stores sharing height 5 with equal
hashes pass the conflict check. -/
theorem check_for_conflicts_spec_witness :
    (check_for_conflicts cpConflict cpOne).1 = true := by
  have h := (check_for_conflicts_spec cpConflict cpOne).2.1
  apply h.mpr
  intro k v hkv v0 hv0
  have hk : (k, v) = (5, 1) := by simpa [cpOne] using hkv
  rw [Prod.mk.injEq] at hk
  obtain ⟨rfl, rfl⟩ := hk
  have hfind : mapFind 5 cpConflict.m_points = some 1 := by decide
  rw [hfind] at hv0
  exact (Option.some.inj hv0).symm

/-- Counterexample to C4 as stated: loading a parsed file whose first
record (height 10) is valid and whose second record (height 20) has a
malformed hash fails, yet the store is not restored to its pre-call
state: the first insertion remains. -/
theorem json_load_not_atomic_cex :
    (load_checkpoints_from_json (some (some fileC4)) emptyCp).1 = false
    ∧ (load_checkpoints_from_json (some (some fileC4)) emptyCp).2 ≠ emptyCp
    ∧ mapFind 10 (load_checkpoints_from_json (some (some fileC4)) emptyCp).2.m_points
        = some 1 := by
  decide

/-- C4 amended: a load that fails partway is per-record, not
all-or-none: when the records before some failing record load
successfully, producing store s1, and that record (above the baseline)
fails its insertion, the whole load fails and leaves the store at s1,
keeping exactly the insertions made before the failure. -/
theorem json_load_partial_mutation (pfx rest : List t_hashline)
    (l : t_hashline) (s s1 : checkpoints)
    (hpfx : loadLines (get_max_height s) s pfx = (true, s1))
    (hh : get_max_height s < l.height)
    (hfail : (add_checkpoint s1 l.height l.hash "").1 = false) :
    load_checkpoints_from_json (some (some (pfx ++ l :: rest))) s = (false, s1) := by
  have hstep : loadLines (get_max_height s) s1 (l :: rest) = (false, s1) := by
    simp only [loadLines, if_neg (Nat.not_le.mpr hh)]
    rcases hadd : add_checkpoint s1 l.height l.hash "" with ⟨r, s2⟩
    have hr : r = false := by
      rw [hadd] at hfail
      exact hfail
    subst hr
    have hs2 : s2 = s1 := add_checkpoint_fail_empty s1 s2 l.height l.hash hadd
    rw [hs2]
  show loadLines (get_max_height s) s (pfx ++ l :: rest) = (false, s1)
  rw [loadLines_append_true (get_max_height s) pfx s s1 (l :: rest) hpfx]
  exact hstep

/-- Witness for the amended C4: the concrete failing file of the
counterexample leaves exactly its first insertion in the store. -/
theorem json_load_partial_mutation_witness :
    load_checkpoints_from_json (some (some fileC4)) emptyCp =
      (false, ⟨[(10, 1)], []⟩) := by
  have h := json_load_partial_mutation [⟨10, hexOne⟩] [] ⟨20, badHex⟩
    emptyCp ⟨[(10, 1)], []⟩ (by decide) (by decide) (by decide)
  exact h

/-- Counterexample to C8 as stated: on the empty store, a parsed file
whose first record has a malformed hash aborts the load, so its second
record, which is strictly above the baseline and has a valid hex hash,
is never inserted. -/
theorem json_load_abort_cex :
    hex_to_pod hexOne = some 1
    ∧ get_max_height emptyCp < 20
    ∧ (load_checkpoints_from_json (some (some fileC8)) emptyCp).1 = false
    ∧ mapFind 20 (load_checkpoints_from_json (some (some fileC8)) emptyCp).2.m_points
        = none := by
  decide

/-- C8 amended: a non-existent file loads successfully leaving the
store unchanged; records at or below the recorded baseline are skipped
leaving the store unchanged at that step; and when the load as a whole
succeeds, every record strictly above the baseline has a valid hex
hash and its decoded hash is present in the hash-anchor map (an
earlier decode failure or conflict would instead abort the load,
leaving later records unprocessed). -/
theorem json_load_spec (s s' : checkpoints) (lines : List t_hashline)
    (prev : Nat) (l : t_hashline) (t : List t_hashline) :
    load_checkpoints_from_json none s = (true, s)
    ∧ (l.height ≤ prev → loadLines prev s (l :: t) = loadLines prev s t)
    ∧ (load_checkpoints_from_json (some (some lines)) s = (true, s') →
        ∀ r ∈ lines, get_max_height s < r.height →
          ∃ hv, hex_to_pod r.hash = some hv ∧ mapFind r.height s'.m_points = some hv) := by
  refine ⟨rfl, fun hl => loadLines_skip prev s l t hl, ?_⟩
  intro hload r hr hgt
  exact loadLines_success_inserted (get_max_height s) lines s s' hload r hr hgt

/-- Witness for the amended C8: loading the single fresh record
(20, hexOne) into the empty store stores hash 1 at height 20. -/
theorem json_load_spec_witness :
    ∃ hv, hex_to_pod hexOne = some hv
      ∧ mapFind 20 (checkpoints.mk [(20, 1)] []).m_points = some hv :=
  (json_load_spec emptyCp ⟨[(20, 1)], []⟩ [⟨20, hexOne⟩] 0 ⟨20, hexOne⟩ []).2.2
    (by decide) ⟨20, hexOne⟩ (by decide) (by decide)
